import Mathlib

/-!
Verification development for the course-dashboard backend
(`src/app.py`, `src/test.py`).

The HTML documents consumed by the extractor are modelled as flat lists of
sibling nodes (the site's markup is flat: sections are heading-delimited runs
of siblings, so `find_next_siblings` and `find_all_next` both correspond to
the suffix of the node list after the anchor).  Node texts model the
already-stripped `get_text` results of the corresponding elements; an `em`
node additionally carries the text of its following sibling text node, when
present (`next_sibling`).
-/

namespace Dashboard

/-- One `tr` row of a table: the stripped texts of its first `th` and first
`td` descendant, when present (`row.find` returns `None` ⇒ `none`). -/
structure Row where
  th : Option String
  td : Option String
deriving DecidableEq

/-- A DOM node of the flat document body, covering exactly the node shapes the
extractors in `src/app.py` dispatch on. -/
inductive Node where
  | h1 (text : String)
  | h3 (text : String)
  | h4 (text : String)
  | p (text : String)
  | ul (text : String)
  | ol (text : String)
  | em (text : String) (nextSib : Option String)
  | table (classes : List String) (rows : List Row)
  | other
deriving DecidableEq

/-- A parsed document is its flat body node list. -/
abbrev Doc := List Node

/-- `overview` sub-record built by `_extract_overview`. -/
structure Overview where
  description : String
  teaching_strategies : List String
  topics : List String
deriving DecidableEq

/-- One learning outcome `{no, text}`. -/
structure Outcome where
  no : String
  text : String
deriving DecidableEq

/-- One assessment task: title plus an insertion-ordered `details` mapping
(modelling a Python dict as an association list; updating an existing key
keeps its position, as Python dicts do). -/
structure Task where
  title : String
  details : List (String × String)
deriving DecidableEq

/-- The course record built by `fetch_course` in `src/app.py` (same field set
as `_parse_course` in `src/test.py`). -/
structure CourseRecord where
  code : String
  title : String
  credit_points : String
  requisites : String
  overview : Overview
  learning_outcomes : List Outcome
  assessment : List Task
deriving DecidableEq

/-- Python's substring test `pat in s` (for nonempty `pat`). -/
def containsStr (s pat : String) : Bool := (s.splitOn pat).length != 1

/-- Python's `s.rstrip(c)`: drop every trailing occurrence of `c`. -/
def rstripChar (c : Char) (s : String) : String :=
  String.mk ((s.data.reverse.dropWhile (fun x => x == c)).reverse)

/-- `_extract_title`: text of the first `h1`, else the empty string. -/
def extractTitle : Doc → String
  | [] => ""
  | .h1 t :: _ => t
  | _ :: rest => extractTitle rest

/-- `_extract_credit_points`: first `em` with nonempty stripped text starting
with "Credit points"; its next sibling's stripped text, else empty. -/
def extractCreditPoints : Doc → String
  | [] => ""
  | .em t sib :: rest =>
      if t != "" && t.startsWith "Credit points" then
        match sib with
        | some s => s.trim
        | none => ""
      else extractCreditPoints rest
  | _ :: rest => extractCreditPoints rest

/-- `_extract_requisites`: first `em` with nonempty stripped text starting
with "Requisite"; its full text with the "Requisite(s):" label removed and
stripped, else the empty string. -/
def extractRequisites : Doc → String
  | [] => ""
  | .em t _ :: rest =>
      if t != "" && t.startsWith "Requisite" then
        (t.replace "Requisite(s):" "").trim
      else extractRequisites rest
  | _ :: rest => extractRequisites rest

/-- `_find_section`: the suffix of the document after the first `h3` whose
text contains `heading` (its following siblings), if any. -/
def findSection : Doc → String → Option (List Node)
  | [], _ => none
  | .h3 t :: rest, h => if containsStr t h then some rest else findSection rest h
  | _ :: rest, h => findSection rest h

/-- The paragraph texts of a section body, up to the next `h3`
(`_extract_section_text`'s accumulation loop). -/
def sectionParas : List Node → List String
  | [] => []
  | .h3 _ :: _ => []
  | .p t :: rest => t :: sectionParas rest
  | _ :: rest => sectionParas rest

/-- `_extract_section_text`: space-joined paragraph texts of a section. -/
def sectionText (sec : List Node) : String :=
  String.intercalate " " (sectionParas sec)

/-- The list-comprehension body of `_extract_section_list`: split on newlines,
strip, keep the nonempty items. -/
def lineItems (t : String) : List String :=
  ((t.splitOn "\n").map String.trim).filter (fun s => s != "")

/-- `_extract_section_list`: line items of `p`/`ul`/`ol` siblings up to the
next `h3`. -/
def sectionList : List Node → List String
  | [] => []
  | .h3 _ :: _ => []
  | .p t :: rest => lineItems t ++ sectionList rest
  | .ul t :: rest => lineItems t ++ sectionList rest
  | .ol t :: rest => lineItems t ++ sectionList rest
  | _ :: rest => sectionList rest

/-- `_extract_overview`: description, teaching strategies and topics from
their respective sections. -/
def extractOverview (doc : Doc) : Overview :=
  { description :=
      match findSection doc "Description" with
      | some sec => sectionText sec
      | none => ""
    teaching_strategies :=
      match findSection doc "Teaching and learning strategies" with
      | some sec => sectionList sec
      | none => []
    topics :=
      match findSection doc "Content (topics)" with
      | some sec =>
          let t := sectionText sec
          if containsStr t "Topics include:" then
            (((t.replace "Topics include:" "").splitOn ";").map String.trim).filter
              (fun s => s != "")
          else []
      | none => [] }

/-- First table carrying the `SLOTable` class, as its row list. -/
def findSLOTable : Doc → Option (List Row)
  | [] => none
  | .table cls rows :: rest =>
      if "SLOTable" ∈ cls then some rows else findSLOTable rest
  | _ :: rest => findSLOTable rest

/-- The outcome a row contributes when it has both a `th` and a `td`
(`no` is the `th` text with trailing dots stripped). -/
def rowCand (r : Row) : Option Outcome :=
  match r.th, r.td with
  | some th, some td => some ⟨rstripChar '.' th, td⟩
  | _, _ => none

/-- The row loop of `_extract_learning_outcomes`: keep a row's outcome when
its `td` text has not been seen, recording seen texts. -/
def dedupRows : List Row → List String → List Outcome
  | [], _ => []
  | r :: rest, seen =>
      match r.th, r.td with
      | some th, some td =>
          if td ∈ seen then dedupRows rest seen
          else ⟨rstripChar '.' th, td⟩ :: dedupRows rest (td :: seen)
      | _, _ => dedupRows rest seen

/-- `_extract_learning_outcomes`: dedup-by-text over the SLO table rows. -/
def extractLearningOutcomes (doc : Doc) : List Outcome :=
  match findSLOTable doc with
  | some rows => dedupRows rows []
  | none => []

/-- The per-row candidates of the learning-outcome loop, before
deduplication. -/
def loCands (doc : Doc) : List Outcome :=
  (match findSLOTable doc with
   | some rows => rows
   | none => []).filterMap rowCand

/-- Python dict assignment `d[k] = v`: update in place when the key exists
(keeping its position), else append. -/
def dictSet : List (String × String) → String → String → List (String × String)
  | [], k, v => [(k, v)]
  | (k', v') :: rest, k, v =>
      if k' = k then (k, v) :: rest else (k', v') :: dictSet rest k v

/-- Merge an assessment table's rows into a task's details mapping
(key = `th` text with trailing colon stripped; last write wins). -/
def mergeRows (d : List (String × String)) (rows : List Row) : List (String × String) :=
  rows.foldl
    (fun d r =>
      match r.th, r.td with
      | some th, some td => dictSet d (rstripChar ':' th) td
      | _, _ => d) d

/-- The node loop of `_extract_assessment`: a flat state machine whose state
is the currently open task; `h3` stops (emitting the open task), `h4` emits
the open task and opens a new one, an `assessmentTaskTable` merges into the
open task, and the open task is emitted when the node stream ends. -/
def processAssess : List Node → Option Task → List Task
  | [], none => []
  | [], some t => [t]
  | .h3 _ :: _, none => []
  | .h3 _ :: _, some t => [t]
  | .h4 t :: rest, none => processAssess rest (some ⟨t, []⟩)
  | .h4 t :: rest, some cur => cur :: processAssess rest (some ⟨t, []⟩)
  | .table cls rows :: rest, some cur =>
      if "assessmentTaskTable" ∈ cls then
        processAssess rest (some ⟨cur.title, mergeRows cur.details rows⟩)
      else processAssess rest (some cur)
  | .table _ _ :: rest, none => processAssess rest none
  | .h1 _ :: rest, cur => processAssess rest cur
  | .p _ :: rest, cur => processAssess rest cur
  | .ul _ :: rest, cur => processAssess rest cur
  | .ol _ :: rest, cur => processAssess rest cur
  | .em _ _ :: rest, cur => processAssess rest cur
  | .other :: rest, cur => processAssess rest cur

/-- `_extract_assessment`: run the task state machine on the nodes after the
"Assessment" heading. -/
def extractAssessment (doc : Doc) : List Task :=
  match findSection doc "Assessment" with
  | some sec => processAssess sec none
  | none => []

/-- The record construction inside `fetch_course` (all extractor calls on the
parsed document, with the requested code echoed into the `code` field). -/
def buildCourse (doc : Doc) (code : String) : CourseRecord :=
  { code := code
    title := extractTitle doc
    credit_points := extractCreditPoints doc
    requisites := extractRequisites doc
    overview := extractOverview doc
    learning_outcomes := extractLearningOutcomes doc
    assessment := extractAssessment doc }

/-- `fetch_course`: retrieve the document through the injected fetch
capability, then extract; transport failures propagate. -/
def fetchCourse (fetch : String → Except String Doc) (code : String) :
    Except String CourseRecord :=
  match fetch code with
  | .ok doc => .ok (buildCourse doc code)
  | .error e => .error e

/-! ## The fetch orchestrator (`generate` inside `api_courses`, `src/app.py`) -/

/-- One line of the NDJSON stream of kind "progress". -/
structure ProgressEvent where
  completed : Nat
  total : Nat
  code : String
  error : Option String
deriving DecidableEq

/-- One line of the NDJSON stream: a progress event or the terminal complete
event carrying the result list. -/
inductive StreamItem where
  | progress (e : ProgressEvent)
  | complete (results : List CourseRecord)
deriving DecidableEq

/-- The mutable state threaded through the `generate` loop: the process-wide
`course_cache` (a Python dict, modelled as an insertion-ordered association
list), the `results` accumulator, and the `completed` counter. -/
structure OrchState where
  cache : List (String × CourseRecord)
  results : List CourseRecord
  completed : Nat
deriving DecidableEq

/-- Dict lookup `cache.get(code)`. -/
def lookupCache : List (String × CourseRecord) → String → Option CourseRecord
  | [], _ => none
  | (k, v) :: rest, c => if k = c then some v else lookupCache rest c

/-- Dict assignment `cache[code] = course` (update in place, else append). -/
def insertCache : List (String × CourseRecord) → String → CourseRecord →
    List (String × CourseRecord)
  | [], k, v => [(k, v)]
  | (k', v') :: rest, k, v =>
      if k' = k then (k', v) :: rest else (k', v') :: insertCache rest k v

/-- One iteration of the `for code in codes` loop of `generate`: consult the
cache (a cached course is a nonempty dict, hence truthy in the
`cache.get(code) or fetch_course(code)` expression), else call the fetch
capability; on success write the cache, append to results, bump `completed`
and yield a plain progress event; on failure yield a progress event carrying
the error and leave the state untouched.  The middle component logs the fetch
capability calls made by this step. -/
def processCode (fetch : String → Except String Doc) (total : Nat)
    (st : OrchState) (c : String) : ProgressEvent × List String × OrchState :=
  match lookupCache st.cache c with
  | some course =>
      (⟨st.completed + 1, total, c, none⟩, [],
        ⟨insertCache st.cache c course, st.results ++ [course], st.completed + 1⟩)
  | none =>
      match fetchCourse fetch c with
      | .ok course =>
          (⟨st.completed + 1, total, c, none⟩, [c],
            ⟨insertCache st.cache c course, st.results ++ [course], st.completed + 1⟩)
      | .error e =>
          (⟨st.completed, total, c, some e⟩, [c], st)

/-- The whole `for` loop: the yielded progress events in order, the fetch
call log, and the final loop state. -/
def runCodes (fetch : String → Except String Doc) (total : Nat) :
    OrchState → List String → List ProgressEvent × List String × OrchState
  | st, [] => ([], [], st)
  | st, c :: cs =>
      let s₁ := processCode fetch total st c
      let s₂ := runCodes fetch total s₁.2.2 cs
      (s₁.1 :: s₂.1, s₁.2.1 ++ s₂.2.1, s₂.2.2)

/-- The `generate` generator on a code list, starting from a given state of
the global cache. -/
def generate (fetch : String → Except String Doc)
    (cache₀ : List (String × CourseRecord)) (codes : List String) :
    List ProgressEvent × List String × OrchState :=
  runCodes fetch codes.length ⟨cache₀, [], 0⟩ codes

/-- The full NDJSON stream `generate` yields: every progress line followed by
exactly one complete line carrying `results`. -/
def generateStream (fetch : String → Except String Doc)
    (cache₀ : List (String × CourseRecord)) (codes : List String) :
    List StreamItem :=
  let g := generate fetch cache₀ codes
  g.1.map StreamItem.progress ++ [StreamItem.complete g.2.2.results]

/-- The result list carried by the terminal complete event of a stream. -/
def finalResults (stream : List StreamItem) : List CourseRecord :=
  match stream.getLast? with
  | some (.complete rs) => rs
  | _ => []

/-- Decides whether `fetch_course` succeeds for a code. -/
def fetchOk (fetch : String → Except String Doc) (c : String) : Bool :=
  match fetchCourse fetch c with
  | .ok _ => true
  | .error _ => false

/-- The error message `fetch_course` raises for a code, if any. -/
def errOf (fetch : String → Except String Doc) (c : String) : Option String :=
  match fetchCourse fetch c with
  | .ok _ => none
  | .error m => some m

/-- An identifier is processed successfully from a given cache state iff it
is cached or its fetch succeeds. -/
def succeedsFrom (fetch : String → Except String Doc)
    (cache : List (String × CourseRecord)) (c : String) : Bool :=
  (lookupCache cache c).isSome || fetchOk fetch c

/-- A cache is well formed when every stored record echoes its key in its
`code` field (true of every record the code ever stores). -/
def wfCache (cache : List (String × CourseRecord)) : Prop :=
  ∀ k r, lookupCache cache k = some r → r.code = k

/-! ## The route handler `api_courses` (`src/app.py`) -/

/-- A JSON value a client may send as `subject_codes`: a list of strings, a
bare string, or `null`. -/
inductive ReqVal where
  | list (xs : List String)
  | str (s : String)
  | null
deriving DecidableEq

/-- Lookup in the JSON object body (`data.get`). -/
def lookupField : List (String × ReqVal) → String → Option ReqVal
  | [], _ => none
  | (k, v) :: rest, c => if k = c then some v else lookupField rest c

/-- What the client observes from `api_courses`: a single top-level JSON
error (the outer `except` branch), a stream that dies when the generator
raises before its first yield, or the NDJSON stream (paired here with the
fetch call log). -/
inductive ApiResponse where
  | topError (msg : String)
  | streamCrash (msg : String)
  | stream (events : List StreamItem) (calls : List String)
deriving DecidableEq

/-- The fetch calls a response performed. -/
def ApiResponse.callsOf : ApiResponse → List String
  | .topError _ => []
  | .streamCrash _ => []
  | .stream _ calls => calls

/-- Whether a response is the single top-level error. -/
def ApiResponse.isTopError : ApiResponse → Bool
  | .topError _ => true
  | _ => false

/-- Iterating a Python string yields its characters as one-char strings. -/
def strChars (s : String) : List String := s.data.map Char.toString

/-- `api_courses`: a body that is not a JSON object makes `data.get` raise
inside the `try`, producing the single top-level error; otherwise
`subject_codes` (defaulting to `[]`) drives the generator: a list is iterated
as given, a string is iterated character by character, and `null` makes
`len(codes)` raise when streaming starts. -/
def apiCourses (fetch : String → Except String Doc)
    (cache₀ : List (String × CourseRecord))
    (body : Option (List (String × ReqVal))) : ApiResponse :=
  match body with
  | none => .topError "AttributeError"
  | some fields =>
      match (lookupField fields "subject_codes").getD (ReqVal.list []) with
      | .null => .streamCrash "TypeError"
      | .list cs =>
          let g := generate fetch cache₀ cs
          .stream (g.1.map StreamItem.progress ++ [StreamItem.complete g.2.2.results]) g.2.1
      | .str s =>
          let g := generate fetch cache₀ (strChars s)
          .stream (g.1.map StreamItem.progress ++ [StreamItem.complete g.2.2.results]) g.2.1

/-! ## Snapshot persistence (`save_courses` in `src/test.py`) -/

/-- A JSON value, as written by `json.dumps` on the course dicts. -/
inductive J where
  | str (s : String)
  | arr (xs : List J)
  | obj (fields : List (String × J))

/-- Serialization of an overview dict. -/
def overviewToJ (o : Overview) : J :=
  .obj [("description", .str o.description),
        ("teaching_strategies", .arr (o.teaching_strategies.map J.str)),
        ("topics", .arr (o.topics.map J.str))]

/-- Serialization of one learning outcome. -/
def outcomeToJ (oc : Outcome) : J :=
  .obj [("no", .str oc.no), ("text", .str oc.text)]

/-- Serialization of one assessment task. -/
def taskToJ (t : Task) : J :=
  .obj [("title", .str t.title),
        ("details", .obj (t.details.map (fun p => (p.1, J.str p.2))))]

/-- Serialization of a course record, field order as constructed by
`_parse_course` / `fetch_course`. -/
def courseToJ (r : CourseRecord) : J :=
  .obj [("code", .str r.code),
        ("title", .str r.title),
        ("credit_points", .str r.credit_points),
        ("requisites", .str r.requisites),
        ("overview", overviewToJ r.overview),
        ("learning_outcomes", .arr (r.learning_outcomes.map outcomeToJ)),
        ("assessment", .arr (r.assessment.map taskToJ))]

/-- `save_courses` serializes the whole course list as one JSON array. -/
def snapshotToJ (courses : List CourseRecord) : J :=
  .arr (courses.map courseToJ)

/-- Read a JSON string. -/
def strOfJ : J → Option String
  | .str s => some s
  | _ => none

/-- Read every array element with `f`, failing if any element fails. -/
def parseEach {α : Type} (f : J → Option α) : List J → Option (List α)
  | [] => some []
  | j :: js =>
      match f j, parseEach f js with
      | some a, some as => some (a :: as)
      | _, _ => none

/-- Read an object's string fields back as a string-to-string mapping. -/
def pairsOfJ : List (String × J) → Option (List (String × String))
  | [] => some []
  | (k, j) :: rest =>
      match strOfJ j, pairsOfJ rest with
      | some v, some vs => some ((k, v) :: vs)
      | _, _ => none

/-- Modelled from the spec: the external snapshot loader (spec §6, "Snapshot
persistence format") is not part of `src/`; reading an overview object back
is modelled as the inverse of its self-describing serialization. -/
def overviewOfJ : J → Option Overview
  | .obj [("description", .str d), ("teaching_strategies", .arr ts),
          ("topics", .arr tp)] =>
      match parseEach strOfJ ts, parseEach strOfJ tp with
      | some ts', some tp' => some ⟨d, ts', tp'⟩
      | _, _ => none
  | _ => none

/-- Modelled from the spec: reading one learning outcome back. -/
def outcomeOfJ : J → Option Outcome
  | .obj [("no", .str n), ("text", .str t)] => some ⟨n, t⟩
  | _ => none

/-- Modelled from the spec: reading one assessment task back. -/
def taskOfJ : J → Option Task
  | .obj [("title", .str t), ("details", .obj ds)] =>
      match pairsOfJ ds with
      | some ds' => some ⟨t, ds'⟩
      | none => none
  | _ => none

/-- Modelled from the spec: reading a course record back from the snapshot
format (the external loader of spec §6). -/
def courseOfJ : J → Option CourseRecord
  | .obj [("code", .str c), ("title", .str t), ("credit_points", .str cp),
          ("requisites", .str rq), ("overview", ov),
          ("learning_outcomes", .arr los), ("assessment", .arr as)] =>
      match overviewOfJ ov, parseEach outcomeOfJ los, parseEach taskOfJ as with
      | some o, some l, some a => some ⟨c, t, cp, rq, o, l, a⟩
      | _, _, _ => none
  | _ => none

/-- Modelled from the spec: reading the snapshot array back. -/
def snapshotOfJ : J → Option (List CourseRecord)
  | .arr xs => parseEach courseOfJ xs
  | _ => none

/-- The guard of the requisites loop: an `em` whose nonempty stripped text
starts with "Requisite". -/
def isReqMarker : Node → Bool
  | .em t _ => t != "" && t.startsWith "Requisite"
  | _ => false

/-- Whether a node is an `h3` heading (the stop condition of the assessment
loop). -/
def isH3 : Node → Bool
  | .h3 _ => true
  | _ => false

/-- Number of `h4` task headings before the first `h3` of a node stream. -/
def countH4Until : List Node → Nat
  | [] => 0
  | .h3 _ :: _ => 0
  | .h4 _ :: rest => countH4Until rest + 1
  | _ :: rest => countH4Until rest

/-- Number of success events (no `error` field) in a progress stream. -/
def countSucc (evs : List ProgressEvent) : Nat :=
  evs.countP (fun e => e.error.isNone)

/-- The completed-counter discipline of the claim: starting from `n`
successes so far, a success event carries `n + 1` (the counter is bumped),
while an error event carries `n` unchanged (number of successes so far, not
of items attempted). -/
def eventsOK : Nat → List ProgressEvent → Bool
  | _, [] => true
  | n, e :: rest =>
      if e.error.isNone then e.completed == n + 1 && eventsOK (n + 1) rest
      else e.completed == n && eventsOK n rest

/-! ## Concrete sample inputs (used to instantiate the general theorems) -/

/-- A fetch capability for which every transport attempt fails. -/
def sampleFailFetch : String → Except String Doc := fun _ => .error "boom"

/-- A one-heading sample document. -/
def sampleDoc : Doc := [Node.h1 "Discrete Mathematics"]

/-- A fetch capability resolving only the identifier "A". -/
def sampleFetchA : String → Except String Doc :=
  fun c => if c = "A" then .ok sampleDoc else .error "404"

/-- A document whose SLO table repeats the outcome text "AAA". -/
def sampleDocLO : Doc :=
  [Node.table ["SLOTable"]
    [⟨some "1.", some "AAA"⟩, ⟨some "2.", some "BBB"⟩, ⟨some "3.", some "AAA"⟩]]

/-! ## Helper lemmas on the cache -/

theorem lookup_insertCache_self (cache : List (String × CourseRecord))
    (k : String) (v : CourseRecord) :
    lookupCache (insertCache cache k v) k = some v := by
  induction cache with
  | nil => simp [insertCache, lookupCache]
  | cons p rest ih =>
      obtain ⟨k', v'⟩ := p
      by_cases h : k' = k
      · simp [insertCache, lookupCache, h]
      · simp [insertCache, lookupCache, h, ih]

theorem lookup_insertCache_ne (cache : List (String × CourseRecord))
    (k x : String) (v : CourseRecord) (h : x ≠ k) :
    lookupCache (insertCache cache k v) x = lookupCache cache x := by
  have hkx : ¬ (k = x) := fun hh => h hh.symm
  induction cache with
  | nil => simp [insertCache, lookupCache, hkx]
  | cons p rest ih =>
      obtain ⟨k', v'⟩ := p
      by_cases hk : k' = k
      · subst hk
        simp [insertCache, lookupCache, hkx]
      · simp [insertCache, lookupCache, hk, ih]

theorem wfCache_insert {cache : List (String × CourseRecord)} {k : String}
    {v : CourseRecord} (hwf : wfCache cache) (hv : v.code = k) :
    wfCache (insertCache cache k v) := by
  intro x r hx
  by_cases h : x = k
  · subst h
    rw [lookup_insertCache_self] at hx
    cases hx
    exact hv
  · rw [lookup_insertCache_ne cache k x v h] at hx
    exact hwf x r hx

theorem fetchCourse_code {fetch : String → Except String Doc} {c : String}
    {r : CourseRecord} (h : fetchCourse fetch c = .ok r) : r.code = c := by
  unfold fetchCourse at h
  cases hf : fetch c with
  | ok doc => rw [hf] at h; cases h; rfl
  | error e => rw [hf] at h; cases h

theorem fetchOk_of_ok {fetch : String → Except String Doc} {c : String}
    {r : CourseRecord} (h : fetchCourse fetch c = .ok r) :
    fetchOk fetch c = true := by
  simp [fetchOk, h]

theorem fetchOk_of_error {fetch : String → Except String Doc} {c : String}
    {e : String} (h : fetchCourse fetch c = .error e) :
    fetchOk fetch c = false := by
  simp [fetchOk, h]

/-! ## Step lemmas about `processCode` -/

theorem processCode_cache_succeeds (fetch : String → Except String Doc)
    (total : Nat) (st : OrchState) (c : String) :
    succeedsFrom fetch (processCode fetch total st c).2.2.cache
      = succeedsFrom fetch st.cache := by
  funext x
  by_cases hx : x = c
  · subst hx
    cases hl : lookupCache st.cache x with
    | some r =>
        simp [processCode, hl, succeedsFrom, lookup_insertCache_self]
    | none =>
        cases hf : fetchCourse fetch x with
        | ok r =>
            simp [processCode, hl, hf, succeedsFrom, lookup_insertCache_self,
              fetchOk_of_ok hf]
        | error e => simp [processCode, hl, hf]
  · cases hl : lookupCache st.cache c with
    | some r =>
        simp [processCode, hl, succeedsFrom,
          lookup_insertCache_ne st.cache c x r hx]
    | none =>
        cases hf : fetchCourse fetch c with
        | ok r =>
            simp [processCode, hl, hf, succeedsFrom,
              lookup_insertCache_ne st.cache c x r hx]
        | error e => simp [processCode, hl, hf]

theorem processCode_wf {fetch : String → Except String Doc} {total : Nat}
    {st : OrchState} {c : String} (hwf : wfCache st.cache) :
    wfCache (processCode fetch total st c).2.2.cache := by
  cases hl : lookupCache st.cache c with
  | some r =>
      simp only [processCode, hl]
      exact wfCache_insert hwf (hwf c r hl)
  | none =>
      cases hf : fetchCourse fetch c with
      | ok r =>
          simp only [processCode, hl, hf]
          exact wfCache_insert hwf (fetchCourse_code hf)
      | error e => simpa only [processCode, hl, hf] using hwf

theorem processCode_cache_mono (fetch : String → Except String Doc)
    (total : Nat) (st : OrchState) (c x : String)
    (h : (lookupCache st.cache x).isSome = true) :
    (lookupCache (processCode fetch total st c).2.2.cache x).isSome = true := by
  by_cases hx : x = c
  · subst hx
    cases hl : lookupCache st.cache x with
    | some r => simp [processCode, hl, lookup_insertCache_self]
    | none => simp [hl] at h
  · cases hl : lookupCache st.cache c with
    | some r =>
        simp [processCode, hl, lookup_insertCache_ne st.cache c x r hx, h]
    | none =>
        cases hf : fetchCourse fetch c with
        | ok r =>
            simp [processCode, hl, hf, lookup_insertCache_ne st.cache c x r hx, h]
        | error e => simpa [processCode, hl, hf] using h

theorem processCode_cache_other (fetch : String → Except String Doc)
    (total : Nat) (st : OrchState) (x c : String) (hxc : c ≠ x) :
    lookupCache (processCode fetch total st x).2.2.cache c
      = lookupCache st.cache c := by
  cases hl : lookupCache st.cache x with
  | some r => simp [processCode, hl, lookup_insertCache_ne st.cache x c r hxc]
  | none =>
      cases hf : fetchCourse fetch x with
      | ok r => simp [processCode, hl, hf, lookup_insertCache_ne st.cache x c r hxc]
      | error e => simp [processCode, hl, hf]

/-! ## Run lemmas about `runCodes` -/

theorem runCodes_results_map (fetch : String → Except String Doc) (total : Nat) :
    ∀ (cs : List String) (st : OrchState), wfCache st.cache →
      ((runCodes fetch total st cs).2.2.results).map CourseRecord.code
        = st.results.map CourseRecord.code
            ++ cs.filter (succeedsFrom fetch st.cache) := by
  intro cs
  induction cs with
  | nil => intro st _; simp [runCodes]
  | cons c cs ih =>
      intro st hwf
      have hih := ih (processCode fetch total st c).2.2 (processCode_wf hwf)
      rw [processCode_cache_succeeds fetch total st c] at hih
      simp only [runCodes]
      rw [hih]
      cases hl : lookupCache st.cache c with
      | some r =>
          have hrc : r.code = c := hwf c r hl
          have hp : succeedsFrom fetch st.cache c = true := by
            simp [succeedsFrom, hl]
          simp [processCode, hl, hp, hrc, List.filter_cons]
      | none =>
          cases hf : fetchCourse fetch c with
          | ok r =>
              have hrc : r.code = c := fetchCourse_code hf
              have hp : succeedsFrom fetch st.cache c = true := by
                simp [succeedsFrom, hl, fetchOk_of_ok hf]
              simp [processCode, hl, hf, hp, hrc, List.filter_cons]
          | error e =>
              have hp : succeedsFrom fetch st.cache c = false := by
                simp [succeedsFrom, hl, fetchOk_of_error hf]
              simp [processCode, hl, hf, hp, List.filter_cons]

theorem runCodes_events_map (fetch : String → Except String Doc) (total : Nat) :
    ∀ (cs : List String) (st : OrchState),
      ((runCodes fetch total st cs).1).map (fun e => (e.code, e.error))
        = cs.map (fun c =>
            cond (succeedsFrom fetch st.cache c) (c, none) (c, errOf fetch c)) := by
  intro cs
  induction cs with
  | nil => intro st; simp [runCodes]
  | cons c cs ih =>
      intro st
      have hih := ih (processCode fetch total st c).2.2
      rw [processCode_cache_succeeds fetch total st c] at hih
      simp only [runCodes, List.map_cons]
      rw [hih]
      cases hl : lookupCache st.cache c with
      | some r =>
          have hp : succeedsFrom fetch st.cache c = true := by
            simp [succeedsFrom, hl]
          simp [processCode, hl, hp]
      | none =>
          cases hf : fetchCourse fetch c with
          | ok r =>
              have hp : succeedsFrom fetch st.cache c = true := by
                simp [succeedsFrom, hl, fetchOk_of_ok hf]
              simp [processCode, hl, hf, hp]
          | error e =>
              have hp : succeedsFrom fetch st.cache c = false := by
                simp [succeedsFrom, hl, fetchOk_of_error hf]
              simp [processCode, hl, hf, hp, errOf]

theorem runCodes_eventsOK (fetch : String → Except String Doc) (total : Nat) :
    ∀ (cs : List String) (st : OrchState),
      eventsOK st.completed (runCodes fetch total st cs).1 = true := by
  intro cs
  induction cs with
  | nil => intro st; simp [runCodes, eventsOK]
  | cons c cs ih =>
      intro st
      simp only [runCodes]
      cases hl : lookupCache st.cache c with
      | some r =>
          have h2 := ih (processCode fetch total st c).2.2
          simp [processCode, hl] at h2
          simpa [processCode, hl, eventsOK] using h2
      | none =>
          cases hf : fetchCourse fetch c with
          | ok r =>
              have h2 := ih (processCode fetch total st c).2.2
              simp [processCode, hl, hf] at h2
              simpa [processCode, hl, hf, eventsOK] using h2
          | error e =>
              have h2 := ih (processCode fetch total st c).2.2
              simp [processCode, hl, hf] at h2
              simpa [processCode, hl, hf, eventsOK] using h2

theorem runCodes_completed (fetch : String → Except String Doc) (total : Nat) :
    ∀ (cs : List String) (st : OrchState),
      (runCodes fetch total st cs).2.2.completed
        = st.completed + countSucc (runCodes fetch total st cs).1 := by
  intro cs
  induction cs with
  | nil => intro st; simp [runCodes, countSucc]
  | cons c cs ih =>
      intro st
      simp only [runCodes]
      cases hl : lookupCache st.cache c with
      | some r =>
          have h2 := ih (processCode fetch total st c).2.2
          simp [processCode, hl] at h2
          simp [processCode, hl, countSucc, List.countP_cons] at h2 ⊢
          omega
      | none =>
          cases hf : fetchCourse fetch c with
          | ok r =>
              have h2 := ih (processCode fetch total st c).2.2
              simp [processCode, hl, hf] at h2
              simp [processCode, hl, hf, countSucc, List.countP_cons] at h2 ⊢
              omega
          | error e =>
              have h2 := ih (processCode fetch total st c).2.2
              simp [processCode, hl, hf] at h2
              simp [processCode, hl, hf, countSucc, List.countP_cons] at h2 ⊢
              omega

theorem runCodes_results_length (fetch : String → Except String Doc) (total : Nat) :
    ∀ (cs : List String) (st : OrchState),
      (runCodes fetch total st cs).2.2.results.length
        = st.results.length + countSucc (runCodes fetch total st cs).1 := by
  intro cs
  induction cs with
  | nil => intro st; simp [runCodes, countSucc]
  | cons c cs ih =>
      intro st
      simp only [runCodes]
      cases hl : lookupCache st.cache c with
      | some r =>
          have h2 := ih (processCode fetch total st c).2.2
          simp [processCode, hl] at h2
          simp [processCode, hl, countSucc, List.countP_cons] at h2 ⊢
          omega
      | none =>
          cases hf : fetchCourse fetch c with
          | ok r =>
              have h2 := ih (processCode fetch total st c).2.2
              simp [processCode, hl, hf] at h2
              simp [processCode, hl, hf, countSucc, List.countP_cons] at h2 ⊢
              omega
          | error e =>
              have h2 := ih (processCode fetch total st c).2.2
              simp [processCode, hl, hf] at h2
              simp [processCode, hl, hf, countSucc, List.countP_cons] at h2 ⊢
              omega

theorem runCodes_events_length (fetch : String → Except String Doc) (total : Nat)
    (cs : List String) (st : OrchState) :
    (runCodes fetch total st cs).1.length = cs.length := by
  have h := congrArg List.length (runCodes_events_map fetch total cs st)
  simpa using h

theorem eventsOK_split :
    ∀ (l₁ : List ProgressEvent) (e : ProgressEvent) (l₂ : List ProgressEvent)
      (n : Nat), eventsOK n (l₁ ++ e :: l₂) = true → e.error.isSome = true →
      e.completed = n + countSucc l₁ := by
  intro l₁
  induction l₁ with
  | nil =>
      intro e l₂ n h hs
      have hnone : e.error.isNone = false := by
        cases he : e.error
        · simp [he] at hs
        · simp [he]
      simp [eventsOK, hnone] at h
      simp [countSucc, h.1]
  | cons x l₁ ih =>
      intro e l₂ n h hs
      simp only [List.cons_append, eventsOK] at h
      by_cases hx : x.error.isNone
      · simp [hx] at h
        have hrec := ih e l₂ (n + 1) h.2 hs
        simp [countSucc, List.countP_cons, hx] at hrec ⊢
        omega
      · simp [hx] at h
        have hrec := ih e l₂ n h.2 hs
        simp [countSucc, List.countP_cons, hx] at hrec ⊢
        omega

/-! ## Fetch-call and cache-evolution lemmas -/

theorem runCodes_calls_of_cached (fetch : String → Except String Doc)
    (total : Nat) (c : String) :
    ∀ (cs : List String) (st : OrchState),
      (lookupCache st.cache c).isSome = true →
      ((runCodes fetch total st cs).2.1).count c = 0 := by
  intro cs
  induction cs with
  | nil => intro st _; simp [runCodes]
  | cons x cs ih =>
      intro st h
      have hrest := ih (processCode fetch total st x).2.2
        (processCode_cache_mono fetch total st x c h)
      simp only [runCodes, List.count_append]
      cases hl : lookupCache st.cache x with
      | some r => simp [processCode, hl] at hrest ⊢; exact hrest
      | none =>
          have hxc : (x == c) = false := by
            have : x ≠ c := by
              intro hh
              subst hh
              rw [hl] at h
              simp at h
            simp [this]
          cases hf : fetchCourse fetch x with
          | ok r =>
              simp [processCode, hl, hf, List.count_cons, hxc] at hrest ⊢
              exact hrest
          | error e =>
              simp [processCode, hl, hf, List.count_cons, hxc] at hrest ⊢
              exact hrest

theorem runCodes_calls_once (fetch : String → Except String Doc) (total : Nat)
    (c : String) (hok : fetchOk fetch c = true) :
    ∀ (cs : List String) (st : OrchState),
      ((runCodes fetch total st cs).2.1).count c
        ≤ if (lookupCache st.cache c).isSome then 0 else 1 := by
  intro cs
  induction cs with
  | nil => intro st; simp [runCodes]
  | cons x cs ih =>
      intro st
      simp only [runCodes, List.count_append]
      by_cases hx : x = c
      · subst hx
        cases hl : lookupCache st.cache x with
        | some r =>
            have h' : (lookupCache (processCode fetch total st x).2.2.cache x).isSome
                = true :=
              processCode_cache_mono fetch total st x x (by simp [hl])
            have hrest := runCodes_calls_of_cached fetch total x cs
              (processCode fetch total st x).2.2 h'
            simp [processCode, hl] at hrest ⊢
            simp [hrest]
        | none =>
            cases hf : fetchCourse fetch x with
            | error e => simp [fetchOk, hf] at hok
            | ok r =>
                have h' : (lookupCache (processCode fetch total st x).2.2.cache x).isSome
                    = true := by
                  simp [processCode, hl, hf, lookup_insertCache_self]
                have hrest := runCodes_calls_of_cached fetch total x cs
                  (processCode fetch total st x).2.2 h'
                simp [processCode, hl, hf] at hrest ⊢
                simp [hrest, List.count_cons, hl]
      · have hc1 : ((processCode fetch total st x).2.1).count c = 0 := by
          have hbeq : (x == c) = false := by simp [hx]
          cases hl : lookupCache st.cache x with
          | some r => simp [processCode, hl]
          | none =>
              cases hf : fetchCourse fetch x with
              | ok r => simp [processCode, hl, hf, List.count_cons, hbeq]
              | error e => simp [processCode, hl, hf, List.count_cons, hbeq]
        have hrest := ih (processCode fetch total st x).2.2
        rw [processCode_cache_other fetch total st x c
          (fun hh => hx hh.symm)] at hrest
        rw [hc1]
        simpa using hrest

theorem runCodes_cache_none (fetch : String → Except String Doc) (total : Nat)
    (c : String) (hnok : fetchOk fetch c = false) :
    ∀ (cs : List String) (st : OrchState), lookupCache st.cache c = none →
      lookupCache ((runCodes fetch total st cs).2.2.cache) c = none := by
  intro cs
  induction cs with
  | nil => intro st h; simpa [runCodes] using h
  | cons x cs ih =>
      intro st h
      simp only [runCodes]
      by_cases hx : x = c
      · subst hx
        cases hf : fetchCourse fetch x with
        | ok r => simp [fetchOk, hf] at hnok
        | error e =>
            apply ih
            simp [processCode, h, hf]
      · apply ih
        rw [processCode_cache_other fetch total st x c (fun hh => hx hh.symm)]
        exact h

theorem runCodes_cache_mono (fetch : String → Except String Doc) (total : Nat)
    (c : String) :
    ∀ (cs : List String) (st : OrchState),
      (lookupCache st.cache c).isSome = true →
      (lookupCache ((runCodes fetch total st cs).2.2.cache) c).isSome = true := by
  intro cs
  induction cs with
  | nil => intro st h; simpa [runCodes] using h
  | cons x cs ih =>
      intro st h
      simp only [runCodes]
      exact ih _ (processCode_cache_mono fetch total st x c h)

theorem runCodes_cache_populated (fetch : String → Except String Doc)
    (total : Nat) (c : String) :
    ∀ (cs : List String) (st : OrchState), c ∈ cs →
      succeedsFrom fetch st.cache c = true →
      (lookupCache ((runCodes fetch total st cs).2.2.cache) c).isSome = true := by
  intro cs
  induction cs with
  | nil => intro st h; simp at h
  | cons x cs ih =>
      intro st hmem hs
      simp only [runCodes]
      rcases List.mem_cons.mp hmem with hxc | hmem'
      · subst hxc
        have hstep : (lookupCache (processCode fetch total st c).2.2.cache c).isSome
            = true := by
          cases hl : lookupCache st.cache c with
          | some r => simp [processCode, hl, lookup_insertCache_self]
          | none =>
              have hok : fetchOk fetch c = true := by
                simpa [succeedsFrom, hl] using hs
              cases hf : fetchCourse fetch c with
              | ok r => simp [processCode, hl, hf, lookup_insertCache_self]
              | error e => simp [fetchOk, hf] at hok
        exact runCodes_cache_mono fetch total c cs _ hstep
      · have hs' : succeedsFrom fetch (processCode fetch total st x).2.2.cache c
            = true := by
          rw [processCode_cache_succeeds fetch total st x]
          exact hs
        exact ih _ hmem' hs'

theorem processCode_cache_isNone_hit {fetch : String → Except String Doc}
    {total : Nat} {st : OrchState} {x : String} (r : CourseRecord)
    (hl : lookupCache st.cache x = some r) (c : String) :
    (lookupCache (processCode fetch total st x).2.2.cache c).isNone
      = (lookupCache st.cache c).isNone := by
  by_cases hc : c = x
  · subst hc
    simp [processCode, hl, lookup_insertCache_self]
  · rw [processCode_cache_other fetch total st x c hc]

theorem runCodes_calls_all_fail (fetch : String → Except String Doc)
    (total : Nat) (hfail : ∀ c, fetchOk fetch c = false) :
    ∀ (cs : List String) (st : OrchState),
      (runCodes fetch total st cs).2.1
        = cs.filter (fun c => (lookupCache st.cache c).isNone) := by
  intro cs
  induction cs with
  | nil => intro st; simp [runCodes]
  | cons x cs ih =>
      intro st
      simp only [runCodes, List.filter_cons]
      cases hl : lookupCache st.cache x with
      | some r =>
          have hst := ih (processCode fetch total st x).2.2
          have hfun : (fun c =>
              (lookupCache (processCode fetch total st x).2.2.cache c).isNone)
              = (fun c => (lookupCache st.cache c).isNone) :=
            funext (fun c => processCode_cache_isNone_hit r hl c)
          rw [hfun] at hst
          simp [processCode, hl] at hst
          simp [processCode, hl, hst]
      | none =>
          cases hf : fetchCourse fetch x with
          | ok r => have hcontra := hfail x; simp [fetchOk, hf] at hcontra
          | error e =>
              have hst := ih (processCode fetch total st x).2.2
              simp [processCode, hl, hf] at hst
              simp [processCode, hl, hf, hst]

/-! ## Extractor lemmas -/

theorem extractRequisites_no_marker :
    ∀ (doc : Doc), (∀ n ∈ doc, isReqMarker n = false) →
      extractRequisites doc = "" := by
  intro doc
  induction doc with
  | nil => intro _; rfl
  | cons n rest ih =>
      intro h
      have hn := h n (by simp)
      have hrest := ih (fun m hm => h m (by simp [hm]))
      cases n with
      | em t sib =>
          have ht : (t != "" && t.startsWith "Requisite") = false := by
            simpa [isReqMarker] using hn
          simp [extractRequisites, ht, hrest]
      | h1 t => simp [extractRequisites, hrest]
      | h3 t => simp [extractRequisites, hrest]
      | h4 t => simp [extractRequisites, hrest]
      | p t => simp [extractRequisites, hrest]
      | ul t => simp [extractRequisites, hrest]
      | ol t => simp [extractRequisites, hrest]
      | table cls rows => simp [extractRequisites, hrest]
      | other => simp [extractRequisites, hrest]

theorem dedupRows_text_not_seen :
    ∀ (rows : List Row) (seen : List String) (o : Outcome),
      o ∈ dedupRows rows seen → o.text ∉ seen := by
  intro rows
  induction rows with
  | nil => intro seen o h; simp [dedupRows] at h
  | cons r rest ih =>
      intro seen o h
      obtain ⟨th, td⟩ := r
      cases th with
      | none => simp [dedupRows] at h; exact ih seen o h
      | some th =>
          cases td with
          | none => simp [dedupRows] at h; exact ih seen o h
          | some td =>
              by_cases hs : td ∈ seen
              · simp [dedupRows, hs] at h
                exact ih seen o h
              · simp [dedupRows, hs] at h
                rcases h with h | h
                · subst h; exact hs
                · have hrec := ih (td :: seen) o h
                  intro hmem
                  exact hrec (List.mem_cons_of_mem _ hmem)

theorem dedupRows_nodup :
    ∀ (rows : List Row) (seen : List String),
      ((dedupRows rows seen).map Outcome.text).Nodup := by
  intro rows
  induction rows with
  | nil => intro seen; simp [dedupRows]
  | cons r rest ih =>
      intro seen
      obtain ⟨th, td⟩ := r
      cases th with
      | none => simpa [dedupRows] using ih seen
      | some th =>
          cases td with
          | none => simpa [dedupRows] using ih seen
          | some td =>
              by_cases hs : td ∈ seen
              · simpa [dedupRows, hs] using ih seen
              · simp only [dedupRows, hs, if_neg, List.map_cons]
                refine List.Nodup.cons ?_ (ih (td :: seen))
                intro hmem
                rcases List.mem_map.mp hmem with ⟨o, ho, hot⟩
                have hns := dedupRows_text_not_seen rest (td :: seen) o ho
                apply hns
                rw [hot]
                exact List.mem_cons_self _ _

theorem dedupRows_find_first :
    ∀ (rows : List Row) (seen : List String) (o : Outcome),
      o ∈ dedupRows rows seen →
      (rows.filterMap rowCand).find? (fun c => c.text == o.text) = some o := by
  intro rows
  induction rows with
  | nil => intro seen o h; simp [dedupRows] at h
  | cons r rest ih =>
      intro seen o h
      obtain ⟨th, td⟩ := r
      cases th with
      | none =>
          simp [dedupRows] at h
          simpa [List.filterMap_cons, rowCand] using ih seen o h
      | some th =>
          cases td with
          | none =>
              simp [dedupRows] at h
              simpa [List.filterMap_cons, rowCand] using ih seen o h
          | some td =>
              by_cases hs : td ∈ seen
              · simp [dedupRows, hs] at h
                have hno := dedupRows_text_not_seen rest seen o h
                have hne : (td == o.text) = false := by
                  simp only [beq_eq_false_iff_ne]
                  intro hh
                  exact hno (hh ▸ hs)
                have hrec := ih seen o h
                simpa [List.filterMap_cons, rowCand, List.find?, hne] using hrec
              · simp [dedupRows, hs] at h
                rcases h with h | h
                · subst h
                  simp [List.filterMap_cons, rowCand, List.find?]
                · have hno := dedupRows_text_not_seen rest (td :: seen) o h
                  have hne : (td == o.text) = false := by
                    simp only [beq_eq_false_iff_ne]
                    intro hh
                    exact hno (by rw [← hh]; exact List.mem_cons_self _ _)
                  have hrec := ih (td :: seen) o h
                  simpa [List.filterMap_cons, rowCand, List.find?, hne] using hrec

theorem dedupRows_covers :
    ∀ (rows : List Row) (seen : List String) (c : Outcome),
      c ∈ rows.filterMap rowCand → c.text ∉ seen →
      ∃ o ∈ dedupRows rows seen, o.text = c.text := by
  intro rows
  induction rows with
  | nil => intro seen c h; simp at h
  | cons r rest ih =>
      intro seen c hmem hns
      obtain ⟨th, td⟩ := r
      cases th with
      | none =>
          have hmem' : c ∈ rest.filterMap rowCand := hmem
          simpa [dedupRows] using ih seen c hmem' hns
      | some th =>
          cases td with
          | none =>
              have hmem' : c ∈ rest.filterMap rowCand := hmem
              simpa [dedupRows] using ih seen c hmem' hns
          | some td =>
              have hmem :
                  c ∈ (⟨rstripChar '.' th, td⟩ : Outcome) :: rest.filterMap rowCand :=
                hmem
              by_cases hs : td ∈ seen
              · rcases List.mem_cons.mp hmem with hc | hc
                · subst hc
                  exact absurd hs hns
                · simpa [dedupRows, hs] using ih seen c hc hns
              · by_cases hct : c.text = td
                · refine ⟨⟨rstripChar '.' th, td⟩, ?_, hct.symm⟩
                  simp [dedupRows, hs]
                · rcases List.mem_cons.mp hmem with hc | hc
                  · rw [hc] at hct
                    simp at hct
                  · have hns' : c.text ∉ td :: seen := by
                      intro hh
                      rcases List.mem_cons.mp hh with hh | hh
                      · exact hct hh
                      · exact hns hh
                    rcases ih (td :: seen) c hc hns' with ⟨o, ho, hot⟩
                    refine ⟨o, ?_, hot⟩
                    simp [dedupRows, hs]
                    right
                    exact ho

theorem dedupRows_sublist :
    ∀ (rows : List Row) (seen : List String),
      List.Sublist (dedupRows rows seen) (rows.filterMap rowCand) := by
  intro rows
  induction rows with
  | nil => intro seen; simp [dedupRows]
  | cons r rest ih =>
      intro seen
      obtain ⟨th, td⟩ := r
      cases th with
      | none => simpa [dedupRows, List.filterMap_cons, rowCand] using ih seen
      | some th =>
          cases td with
          | none => simpa [dedupRows, List.filterMap_cons, rowCand] using ih seen
          | some td =>
              by_cases hs : td ∈ seen
              · simp only [dedupRows, hs, if_pos, List.filterMap_cons, rowCand]
                exact List.Sublist.cons _ (ih seen)
              · simp only [dedupRows, hs, if_neg, List.filterMap_cons, rowCand]
                exact List.Sublist.cons₂ _ (ih (td :: seen))

theorem processAssess_mem_adjacent :
    ∀ (pre : List Node) (a b : String) (post : List Node) (cur : Option Task),
      (∀ n ∈ pre, isH3 n = false) →
      (⟨a, []⟩ : Task) ∈ processAssess (pre ++ Node.h4 a :: Node.h4 b :: post) cur := by
  intro pre
  induction pre with
  | nil =>
      intro a b post cur h
      cases cur with
      | none => simp [processAssess]
      | some t => simp [processAssess]
  | cons n pre ih =>
      intro a b post cur h
      have hn := h n (by simp)
      have hpre : ∀ m ∈ pre, isH3 m = false := fun m hm => h m (by simp [hm])
      rw [List.cons_append]
      cases n with
      | h3 t => simp [isH3] at hn
      | h4 t =>
          cases cur with
          | none =>
              simp only [processAssess]
              exact ih a b post (some ⟨t, []⟩) hpre
          | some c =>
              simp only [processAssess]
              exact List.mem_cons_of_mem _ (ih a b post (some ⟨t, []⟩) hpre)
      | table cls rows =>
          cases cur with
          | none =>
              simp only [processAssess]
              exact ih a b post none hpre
          | some c =>
              by_cases hcl : "assessmentTaskTable" ∈ cls
              · simp only [processAssess, if_pos hcl]
                exact ih a b post (some ⟨c.title, mergeRows c.details rows⟩) hpre
              · simp only [processAssess, if_neg hcl]
                exact ih a b post (some c) hpre
      | h1 t => simp only [processAssess]; exact ih a b post cur hpre
      | p t => simp only [processAssess]; exact ih a b post cur hpre
      | ul t => simp only [processAssess]; exact ih a b post cur hpre
      | ol t => simp only [processAssess]; exact ih a b post cur hpre
      | em t sib => simp only [processAssess]; exact ih a b post cur hpre
      | other => simp only [processAssess]; exact ih a b post cur hpre

theorem processAssess_length :
    ∀ (l : List Node) (cur : Option Task),
      (processAssess l cur).length
        = countH4Until l + cur.elim 0 (fun _ => 1) := by
  intro l
  induction l with
  | nil => intro cur; cases cur <;> simp [processAssess, countH4Until]
  | cons n rest ih =>
      intro cur
      cases n with
      | h3 t => cases cur <;> simp [processAssess, countH4Until]
      | h4 t =>
          cases cur with
          | none => simp [processAssess, countH4Until, ih]
          | some c => simp [processAssess, countH4Until, ih]
      | table cls rows =>
          cases cur with
          | none => simp [processAssess, countH4Until, ih]
          | some c =>
              by_cases hcl : "assessmentTaskTable" ∈ cls
              · simp [processAssess, countH4Until, hcl, ih]
              · simp [processAssess, countH4Until, hcl, ih]
      | h1 t => cases cur <;> simp [processAssess, countH4Until, ih]
      | p t => cases cur <;> simp [processAssess, countH4Until, ih]
      | ul t => cases cur <;> simp [processAssess, countH4Until, ih]
      | ol t => cases cur <;> simp [processAssess, countH4Until, ih]
      | em t sib => cases cur <;> simp [processAssess, countH4Until, ih]
      | other => cases cur <;> simp [processAssess, countH4Until, ih]

/-! ## Snapshot round-trip lemmas -/

theorem parseEach_roundtrip {α : Type} (f : J → Option α) (g : α → J)
    (h : ∀ x, f (g x) = some x) :
    ∀ xs : List α, parseEach f (xs.map g) = some xs := by
  intro xs
  induction xs with
  | nil => rfl
  | cons x xs ih => simp [parseEach, h, ih]

theorem pairsOfJ_map (ps : List (String × String)) :
    pairsOfJ (ps.map (fun p => (p.1, J.str p.2))) = some ps := by
  induction ps with
  | nil => rfl
  | cons p rest ih =>
      obtain ⟨k, v⟩ := p
      simp [pairsOfJ, strOfJ, ih]

theorem outcomeOfJ_toJ (oc : Outcome) : outcomeOfJ (outcomeToJ oc) = some oc := rfl

theorem overviewOfJ_toJ (o : Overview) : overviewOfJ (overviewToJ o) = some o := by
  simp [overviewOfJ, overviewToJ, parseEach_roundtrip strOfJ J.str (fun _ => rfl)]

theorem taskOfJ_toJ (t : Task) : taskOfJ (taskToJ t) = some t := by
  simp [taskOfJ, taskToJ, pairsOfJ_map]

theorem courseOfJ_toJ (r : CourseRecord) : courseOfJ (courseToJ r) = some r := by
  simp [courseOfJ, courseToJ, overviewOfJ_toJ,
    parseEach_roundtrip outcomeOfJ outcomeToJ outcomeOfJ_toJ,
    parseEach_roundtrip taskOfJ taskToJ taskOfJ_toJ]

/-! ## Bridge lemmas -/

theorem finalResults_append (l : List StreamItem) (rs : List CourseRecord) :
    finalResults (l ++ [StreamItem.complete rs]) = rs := by
  simp [finalResults, List.getLast?_concat]

theorem finalResults_generateStream (fetch : String → Except String Doc)
    (cache₀ : List (String × CourseRecord)) (codes : List String) :
    finalResults (generateStream fetch cache₀ codes)
      = (generate fetch cache₀ codes).2.2.results := by
  unfold generateStream
  exact finalResults_append _ _

/-! ## The claims -/

/-- C1, counterexample: the claim says the complete event's result sequence
always has length `len(L)`; on the one-element batch `["X"]` with a failing
fetch the code's result sequence is empty, so its length differs from
`len(["X"]) = 1`. -/
theorem C1_counterexample :
    (finalResults (generateStream sampleFailFetch [] ["X"])).length
      ≠ (["X"] : List String).length := by decide

/-- C1 (amended): the complete event's result sequence contains exactly the
records of the successfully processed identifiers, in input order — its code
sequence equals the input list filtered to the identifiers that are cached or
fetch successfully, and its length is the number of such successes (failed
identifiers are dropped from the result list, not echoed as failure
outcomes).  The hypothesis states that every initially cached record echoes
its key, which is true of every record the code ever stores. -/
theorem C1_results_are_successes_in_order (fetch : String → Except String Doc)
    (cache₀ : List (String × CourseRecord)) (codes : List String)
    (hwf : wfCache cache₀) :
    (finalResults (generateStream fetch cache₀ codes)).map CourseRecord.code
        = codes.filter (succeedsFrom fetch cache₀)
      ∧ (finalResults (generateStream fetch cache₀ codes)).length
        = (codes.filter (succeedsFrom fetch cache₀)).length := by
  have hbase := runCodes_results_map fetch codes.length codes ⟨cache₀, [], 0⟩ hwf
  simp at hbase
  have h1 : (finalResults (generateStream fetch cache₀ codes)).map
      CourseRecord.code = codes.filter (succeedsFrom fetch cache₀) := by
    rw [finalResults_generateStream]
    exact hbase
  refine ⟨h1, ?_⟩
  calc (finalResults (generateStream fetch cache₀ codes)).length
      = ((finalResults (generateStream fetch cache₀ codes)).map
          CourseRecord.code).length := (List.length_map _ _).symm
    _ = (codes.filter (succeedsFrom fetch cache₀)).length := by rw [h1]

/-- C1, witness: on batch `["A", "B", "A"]` where only "A" resolves, the
complete event's code sequence is `["A", "A"]`. -/
theorem C1_witness :
    (finalResults (generateStream sampleFetchA [] ["A", "B", "A"])).map
      CourseRecord.code = ["A", "A"] := by
  have h := (C1_results_are_successes_in_order sampleFetchA [] ["A", "B", "A"]
    (fun k r hh => by simp [lookupCache] at hh)).1
  rw [h]
  decide

/-- C2, counterexample: the claim says a failed identifier's `{code, error}`
outcome appears in the final result list; for the failing batch `["Y"]` the
final result list is empty — the failure is reported only through the
progress event. -/
theorem C2_counterexample :
    finalResults (generateStream sampleFailFetch [] ["Y"]) = []
      ∧ (generate sampleFailFetch [] ["Y"]).1
        = [⟨0, 1, "Y", some "boom"⟩] := by decide

/-- C2 (amended): every fetch or extraction error is caught and converted
into a progress event that echoes the identifier and carries the error
message, and the batch continues — exactly one progress event is emitted per
identifier, in input order, with the error field present precisely for the
identifiers that fail; the failure outcome does not appear in the final
result list (see the counterexample). -/
theorem C2_failures_reported_in_progress_only
    (fetch : String → Except String Doc)
    (cache₀ : List (String × CourseRecord)) (codes : List String) :
    ((generate fetch cache₀ codes).1).map (fun e => (e.code, e.error))
        = codes.map (fun c =>
            cond (succeedsFrom fetch cache₀ c) (c, none) (c, errOf fetch c))
      ∧ ((generate fetch cache₀ codes).1).length = codes.length := by
  refine ⟨?_, runCodes_events_length fetch codes.length codes ⟨cache₀, [], 0⟩⟩
  exact runCodes_events_map fetch codes.length codes ⟨cache₀, [], 0⟩

/-- C3, counterexample: the claim says a document without a requisites marker
yields the placeholder "None specified"; the code yields the empty string. -/
theorem C3_counterexample :
    (buildCourse sampleDoc "33130").requisites ≠ "None specified" := by decide

/-- C3 (amended): for every document containing no requisites marker (no
`em` whose nonempty stripped text starts with "Requisite"), the extracted
record's `requisites` field is the empty string — a well-defined default,
but not the placeholder "None specified". -/
theorem C3_missing_requisites_default_empty (doc : Doc) (code : String)
    (h : ∀ n ∈ doc, isReqMarker n = false) :
    (buildCourse doc code).requisites = ""
      ∧ (buildCourse doc code).requisites ≠ "None specified" := by
  have he : extractRequisites doc = "" := extractRequisites_no_marker doc h
  constructor
  · simpa [buildCourse] using he
  · simp [buildCourse, he]

/-- C3, witness: the marker-free sample document extracts to an empty
requisites field. -/
theorem C3_witness : (buildCourse sampleDoc "33130").requisites = "" :=
  (C3_missing_requisites_default_empty sampleDoc "33130" (by decide)).1

/-- C4, counterexample: the claim says a non-list `subject_codes` is rejected
before any fetch; a string value `"AB"` is not rejected — the generator
iterates its characters and performs a fetch for each one. -/
theorem C4_counterexample :
    (apiCourses sampleFailFetch []
        (some [("subject_codes", ReqVal.str "AB")])).isTopError = false
      ∧ (apiCourses sampleFailFetch []
          (some [("subject_codes", ReqVal.str "AB")])).callsOf = ["A", "B"] := by
  decide

/-- C4 (amended): only a body that is not a JSON object is rejected with a
single top-level error before any fetch; a `subject_codes` value that is a
string is not rejected — the generator iterates it character by character
and performs a fetch for every uncached character (partial processing of a
non-list input). -/
theorem C4_malformed_input_not_always_rejected
    (fetch : String → Except String Doc)
    (cache₀ : List (String × CourseRecord)) :
    ((apiCourses fetch cache₀ none).isTopError = true
      ∧ (apiCourses fetch cache₀ none).callsOf = [])
    ∧ (∀ (fields : List (String × ReqVal)) (s : String),
        lookupField fields "subject_codes" = some (ReqVal.str s) →
        (∀ x, fetchOk fetch x = false) →
        (apiCourses fetch cache₀ (some fields)).isTopError = false
        ∧ (apiCourses fetch cache₀ (some fields)).callsOf
            = (strChars s).filter (fun x => (lookupCache cache₀ x).isNone)) := by
  refine ⟨⟨rfl, rfl⟩, ?_⟩
  intro fields s hlook hfail
  constructor
  · simp [apiCourses, hlook, ApiResponse.isTopError]
  · have h := runCodes_calls_all_fail fetch (strChars s).length hfail
      (strChars s) ⟨cache₀, [], 0⟩
    simpa [apiCourses, hlook, ApiResponse.callsOf, generate] using h

/-- C4, witness: a non-object body is a single top-level error, while the
string value "XY" drives two fetches. -/
theorem C4_witness :
    (apiCourses sampleFailFetch [] none).isTopError = true
      ∧ (apiCourses sampleFailFetch []
          (some [("subject_codes", ReqVal.str "XY")])).callsOf = ["X", "Y"] := by
  constructor
  · exact (C4_malformed_input_not_always_rejected sampleFailFetch []).1.1
  · have h := (C4_malformed_input_not_always_rejected sampleFailFetch []).2
      [("subject_codes", ReqVal.str "XY")] "XY" (by decide) (fun x => rfl)
    exact h.2.trans (by decide)

/-- C5: a cached identifier is returned from the cache and triggers no fetch
capability call — at the step level the loop body returns the cached record
with an empty call list, and over a whole batch a cached identifier is
fetched zero times; an identifier whose fetch succeeds is fetched at most
once per batch, duplicate occurrences reusing the cache. -/
theorem C5_cache_short_circuit (fetch : String → Except String Doc)
    (cache₀ : List (String × CourseRecord)) (codes : List String) (c : String) :
    ((lookupCache cache₀ c).isSome = true →
        ((generate fetch cache₀ codes).2.1).count c = 0)
    ∧ (fetchOk fetch c = true →
        ((generate fetch cache₀ codes).2.1).count c ≤ 1)
    ∧ (∀ (st : OrchState) (r : CourseRecord), lookupCache st.cache c = some r →
        processCode fetch codes.length st c
          = (⟨st.completed + 1, codes.length, c, none⟩, [],
              ⟨insertCache st.cache c r, st.results ++ [r], st.completed + 1⟩)) := by
  refine ⟨?_, ?_, ?_⟩
  · intro h
    exact runCodes_calls_of_cached fetch codes.length c codes ⟨cache₀, [], 0⟩ h
  · intro hok
    have h := runCodes_calls_once fetch codes.length c hok codes ⟨cache₀, [], 0⟩
    exact le_trans h (by split <;> omega)
  · intro st r h
    simp [processCode, h]

/-- C5, witness: a pre-cached "B" is never fetched, and the duplicated
successful "A" is fetched at most once. -/
theorem C5_witness :
    ((generate sampleFetchA [("B", buildCourse sampleDoc "B")] ["B"]).2.1).count "B" = 0
      ∧ ((generate sampleFetchA [] ["A", "A"]).2.1).count "A" ≤ 1 := by
  constructor
  · exact (C5_cache_short_circuit sampleFetchA
      [("B", buildCourse sampleDoc "B")] ["B"] "B").1 (by decide)
  · exact (C5_cache_short_circuit sampleFetchA [] ["A", "A"] "A").2.1 (by decide)

/-- C6: a failing identifier never writes the cache — at the step level the
loop body leaves the state unchanged, and over a whole batch an identifier
that is uncached and always fails to fetch is still uncached afterwards (a
later retry fetches afresh); conversely an identifier of the batch that is
cached or fetches successfully ends up present in the cache. -/
theorem C6_failures_not_cached (fetch : String → Except String Doc)
    (cache₀ : List (String × CourseRecord)) (codes : List String) (c : String) :
    (lookupCache cache₀ c = none → fetchOk fetch c = false →
        lookupCache ((generate fetch cache₀ codes).2.2.cache) c = none)
    ∧ (c ∈ codes → succeedsFrom fetch cache₀ c = true →
        (lookupCache ((generate fetch cache₀ codes).2.2.cache) c).isSome = true)
    ∧ (∀ (st : OrchState) (e : String), lookupCache st.cache c = none →
        fetchCourse fetch c = .error e →
        (processCode fetch codes.length st c).2.2 = st) := by
  refine ⟨?_, ?_, ?_⟩
  · intro h hnok
    exact runCodes_cache_none fetch codes.length c hnok codes ⟨cache₀, [], 0⟩ h
  · intro hmem hs
    exact runCodes_cache_populated fetch codes.length c codes ⟨cache₀, [], 0⟩ hmem hs
  · intro st e h hf
    simp [processCode, h, hf]

/-- C6, witness: the failing "B" leaves the cache empty at its key; the
successful "A" is cached after the batch. -/
theorem C6_witness :
    lookupCache ((generate sampleFetchA [] ["B"]).2.2.cache) "B" = none
      ∧ (lookupCache ((generate sampleFetchA [] ["A"]).2.2.cache) "A").isSome
        = true := by
  constructor
  · exact (C6_failures_not_cached sampleFetchA [] ["B"] "B").1 (by decide) (by decide)
  · exact (C6_failures_not_cached sampleFetchA [] ["A"] "A").2.1 (by decide) (by decide)

/-- C7: learning-outcome extraction deduplicates by outcome text — the
extracted entries have pairwise distinct texts; each extracted entry is the
first table candidate bearing its text (first occurrence wins, so the entry
sits at the first occurrence's position); every candidate text is
represented exactly once; and the output is an order-preserving sublist of
the per-row candidates. -/
theorem C7_learning_outcomes_dedup (doc : Doc) :
    ((extractLearningOutcomes doc).map Outcome.text).Nodup
    ∧ (∀ o ∈ extractLearningOutcomes doc,
        (loCands doc).find? (fun c => c.text == o.text) = some o)
    ∧ (∀ c ∈ loCands doc,
        ∃ o ∈ extractLearningOutcomes doc, o.text = c.text)
    ∧ List.Sublist (extractLearningOutcomes doc) (loCands doc) := by
  cases hslo : findSLOTable doc with
  | none => simp [extractLearningOutcomes, loCands, hslo]
  | some rows =>
      simp only [extractLearningOutcomes, loCands, hslo]
      exact ⟨dedupRows_nodup rows [],
        fun o ho => dedupRows_find_first rows [] o ho,
        fun c hc => dedupRows_covers rows [] c hc (by simp),
        dedupRows_sublist rows []⟩

/-- C7, witness: in the sample table where rows 1 and 3 share the text
"AAA", the extraction has distinct texts and the entry for "AAA" is the
first-row candidate. -/
theorem C7_witness :
    ((extractLearningOutcomes sampleDocLO).map Outcome.text).Nodup
      ∧ (loCands sampleDocLO).find?
          (fun c => c.text == (⟨"1", "AAA"⟩ : Outcome).text)
        = some ⟨"1", "AAA"⟩ := by
  have h := C7_learning_outcomes_dedup sampleDocLO
  exact ⟨h.1, h.2.1 ⟨"1", "AAA"⟩ (by decide)⟩

/-- C8: in the assessment state machine, an `h4` heading immediately followed
by another `h4` (after any `h3`-free prefix) emits the first task with an
empty details mapping; and no open task is ever lost — the number of emitted
tasks equals the number of `h4` headings before the first `h3`, plus one for
an initially open task (so the task open at the end of the stream, or when
the `h3` is reached, is emitted). -/
theorem C8_assessment_state_machine :
    (∀ (pre : List Node) (a b : String) (post : List Node) (cur : Option Task),
        (∀ n ∈ pre, isH3 n = false) →
        (⟨a, []⟩ : Task) ∈ processAssess (pre ++ Node.h4 a :: Node.h4 b :: post) cur)
    ∧ (∀ (l : List Node) (cur : Option Task),
        (processAssess l cur).length
          = countH4Until l + cur.elim 0 (fun _ => 1)) :=
  ⟨processAssess_mem_adjacent, processAssess_length⟩

/-- C8, witness: two adjacent `h4` headings emit the first task with empty
details, and a single trailing `h4` with no closing heading still yields one
task. -/
theorem C8_witness :
    (⟨"Quiz", []⟩ : Task) ∈ processAssess [Node.h4 "Quiz", Node.h4 "Final"] none
      ∧ (processAssess [Node.h4 "Quiz"] none).length = 1 := by
  constructor
  · exact C8_assessment_state_machine.1 [] "Quiz" "Final" [] none
      (by intro n hn; simp at hn)
  · have h := C8_assessment_state_machine.2 [Node.h4 "Quiz"] none
    rw [h]
    decide

/-- C9: serializing a CourseRecord (and the whole snapshot array written by
`save_courses`) to the self-describing JSON document and reading it back
reproduces the record field for field.  The reader is modelled from the
spec, the snapshot loader being external to `src/`. -/
theorem C9_snapshot_roundtrip :
    (∀ r : CourseRecord, courseOfJ (courseToJ r) = some r)
    ∧ (∀ courses : List CourseRecord,
        snapshotOfJ (snapshotToJ courses) = some courses) := by
  refine ⟨courseOfJ_toJ, ?_⟩
  intro cs
  simp [snapshotOfJ, snapshotToJ,
    parseEach_roundtrip courseOfJ courseToJ courseOfJ_toJ]

/-- C10: the completed counter counts successes only — the event stream
satisfies the counter discipline (a success event carries the incremented
count, an error event repeats the count of successes so far); the final
counter equals both the number of success events and the length of the
result list, and never exceeds the batch total; and every error event's
completed field equals the number of success events preceding it. -/
theorem C10_completed_counts_successes (fetch : String → Except String Doc)
    (cache₀ : List (String × CourseRecord)) (codes : List String) :
    eventsOK 0 (generate fetch cache₀ codes).1 = true
    ∧ (generate fetch cache₀ codes).2.2.completed
        = countSucc (generate fetch cache₀ codes).1
    ∧ (generate fetch cache₀ codes).2.2.completed
        = (generate fetch cache₀ codes).2.2.results.length
    ∧ (generate fetch cache₀ codes).2.2.completed ≤ codes.length
    ∧ (∀ (l₁ : List ProgressEvent) (e : ProgressEvent) (l₂ : List ProgressEvent),
        (generate fetch cache₀ codes).1 = l₁ ++ e :: l₂ →
        e.error.isSome = true → e.completed = countSucc l₁) := by
  have hok := runCodes_eventsOK fetch codes.length codes ⟨cache₀, [], 0⟩
  have hcomp := runCodes_completed fetch codes.length codes ⟨cache₀, [], 0⟩
  have hlen := runCodes_results_length fetch codes.length codes ⟨cache₀, [], 0⟩
  have hev := runCodes_events_length fetch codes.length codes ⟨cache₀, [], 0⟩
  have h2 : (generate fetch cache₀ codes).2.2.completed
      = countSucc (generate fetch cache₀ codes).1 := by simpa using hcomp
  have h3 : (generate fetch cache₀ codes).2.2.results.length
      = countSucc (generate fetch cache₀ codes).1 := by simpa using hlen
  refine ⟨hok, h2, by rw [h2, h3], ?_, ?_⟩
  · rw [h2]
    calc countSucc (generate fetch cache₀ codes).1
        ≤ (generate fetch cache₀ codes).1.length := List.countP_le_length _
      _ = codes.length := hev
  · intro l₁ e l₂ hsplit hes
    have h := eventsOK_split l₁ e l₂ 0 (by rw [← hsplit]; exact hok) hes
    simpa using h

/-- C10, witness: in the batch `["A", "X"]` where "A" succeeds and "X"
fails, the error event carries completed = 1, the number of preceding
successes. -/
theorem C10_witness :
    (⟨1, 2, "X", some "404"⟩ : ProgressEvent).completed
      = countSucc [⟨1, 2, "A", none⟩] := by
  exact (C10_completed_counts_successes sampleFetchA [] ["A", "X"]).2.2.2.2
    [⟨1, 2, "A", none⟩] ⟨1, 2, "X", some "404"⟩ [] (by decide) (by decide)

end Dashboard
